import Mathlib

/-!
Verification of the DoodlePix fidelity-conditioning core (Piethon repository).

The embedding below translates, into Lean, the parts of the program that the
claims are about:

* the fidelity-marker extraction performed in `_encode_prompt`
  (src/DoodlePix/fidelity_mlp.py, lines 115-132): a scan for the Python regex
  pattern f\s*=?\s*(\d+) with IGNORECASE, then clamp to [1,9] and the linear
  map n ↦ 0.1 + (n-1)*(0.8/8);
* the conditioning composition (src/DoodlePix/fidelity_mlp.py, lines 133-141):
  the fidelity embedding is prepended as sequence position 0 to the text
  embeddings, one copy per batch row;
* `InferenceHandler.load_model` (src/DoodlePix/inference.py, lines 72-118; the
  second definition of the method, which is the one Python keeps) and
  `InferenceHandler.generate_image` (lines 128-203), with filesystem reads and
  library calls abstracted by success flags.

Strings are modelled as `List Char` restricted to ASCII text (the repository
only ever feeds ASCII prompts); Python floats are modelled by `ℚ`, which
matches the exact arithmetic the specification states.
-/

namespace DoodlePix

/-- Python regex class \s (ASCII part): space, tab, newline, carriage return,
vertical tab, form feed. -/
def isWs (c : Char) : Bool :=
  c.toNat == 32 || c.toNat == 9 || c.toNat == 10 || c.toNat == 13 ||
    c.toNat == 11 || c.toNat == 12

/-- Python regex class \d (ASCII part): the characters '0' through '9'. -/
def isDigitChar (c : Char) : Bool :=
  48 ≤ c.toNat && c.toNat ≤ 57

/-- Python `int` applied to a run of decimal digit characters. -/
def digitsOf (ds : List Char) : ℕ :=
  ds.foldl (fun a c => 10 * a + (c.toNat - 48)) 0

/-- The part of the regex f\s*=?\s*(\d+) after the leading f: skip whitespace,
optionally consume a single '=', skip whitespace again, then require one or
more digits; returns the integer value of the (greedy, maximal) captured digit
run.  Because \s, '=' and \d are disjoint character classes, the greedy
left-to-right scan is exactly Python's backtracking semantics here. -/
def matchAfterF (cs : List Char) : Option ℕ :=
  let cs1 := cs.dropWhile isWs
  let cs2 := if cs1.head? = some '=' then cs1.tail.dropWhile isWs else cs1
  let ds := cs2.takeWhile isDigitChar
  if ds.isEmpty then none else some (digitsOf ds)

/-- `re.search(r"f\s*=?\s*(\d+)", s, re.IGNORECASE)` (fidelity_mlp.py line
117/126): try each start position from the left; a match can only start at a
letter f or F; return the integer carried by the leftmost match. -/
def findMarker : List Char → Option ℕ
  | [] => none
  | c :: cs =>
    if c == 'f' || c == 'F' then
      match matchAfterF cs with
      | some n => some n
      | none => findMarker cs
    else findMarker cs

/-- `max(1, min(f_int, 9))` (fidelity_mlp.py lines 120/129). -/
def clampFid (n : ℕ) : ℕ := max 1 (min n 9)

/-- `0.1 + (f_int - 1) * (0.8 / 8)` after clamping (fidelity_mlp.py lines
120-121 / 129-130), in exact rational arithmetic. -/
def fidelityOfInt (n : ℕ) : ℚ :=
  1/10 + ((clampFid n - 1 : ℕ) : ℚ) * (8/10 / 8)

/-- Single-prompt fidelity extraction (fidelity_mlp.py lines 115-121): the
marker's value if the regex matches, else the default 0.5. -/
def extractFidelity (s : List Char) : ℚ :=
  match findMarker s with
  | some n => fidelityOfInt n
  | none => 1/2

/-- Batch fidelity extraction (fidelity_mlp.py lines 122-132): collect the
mapped value of every element whose regex search matches, in order; average
them if any were found, else keep the default 0.5. -/
def extractFidelityList (ps : List (List Char)) : ℚ :=
  let fvals := ps.foldr
    (fun p acc =>
      match findMarker p with
      | some n => fidelityOfInt n :: acc
      | none => acc) []
  if fvals.isEmpty then 1/2 else fvals.sum / (fvals.length : ℚ)

/-- Conditioning composition (fidelity_mlp.py lines 133-141).  A text-embedding
batch is a list of rows (one per batch element), each row a sequence of
H-dimensional vectors.  The code builds `fidelity_tensor = full((batch, 1),
fidelity_val)`, runs the fidelity MLP row-wise on it — so every row receives
the same vector `mlp fidelity_val` — unsqueezes to one sequence position, and
concatenates it in front of the text embeddings along the sequence axis.  The
MLP itself is an arbitrary per-sample function `ℚ → List ℚ` here; the claims
about this step are purely structural. -/
def composeFidelity (mlp : ℚ → List ℚ) (fval : ℚ)
    (embeds : List (List (List ℚ))) : List (List (List ℚ)) :=
  embeds.map fun seq => mlp fval :: seq

/-- The loaded pipeline object, abstracted to the single property the claims
inspect: whether a fidelity MLP is attached to it. -/
structure Pipeline where
  hasFidelityMLP : Bool
deriving DecidableEq

/-- The conditioning step actually run at generation time: when a fidelity
module is attached the injection of fidelity_mlp.py lines 133-141 runs; when
no module is attached, the pipeline in use has no injection code, so the text
embeddings pass through unchanged. -/
def pipelineConditioning (pipe : Pipeline) (mlp : ℚ → List ℚ) (fval : ℚ)
    (embeds : List (List (List ℚ))) : List (List (List ℚ)) :=
  if pipe.hasFidelityMLP then composeFidelity mlp fval embeds else embeds

/-- The mutable state of an `InferenceHandler` (src/DoodlePix/inference.py
lines 7-12) that the claims inspect: `self.pipeline`, `None` until a load
attaches one. -/
structure Session where
  pipeline : Option Pipeline
deriving DecidableEq

/-- The environment a `load_model` call runs against, abstracting the
filesystem and library calls by their outcome: whether
`scheduler.from_pretrained` succeeds, whether the pipeline `from_pretrained`
succeeds, whether `os.path.exists(model_path + "/fidelity_mlp")` holds, and
whether `FidelityMLP.from_pretrained` succeeds. -/
structure ModelDir where
  schedulerOk : Bool
  pipelineOk : Bool
  fidelityDirExists : Bool
  fidelityLoadOk : Bool
deriving DecidableEq

/-- Embedding of `InferenceHandler.load_model` (inference.py lines 72-118; of
the two textual definitions of the method, Python keeps the second one).
Control flow of the source:
the outer try covers everything, so a scheduler-load exception returns
`(s, False)` with the session untouched; then the inner try loads the
pipeline and assigns it to `self.pipeline`; if the fidelity directory exists
and its load succeeds, the MLP is attached and the call returns True; if the
fidelity load raises, the inner except reloads the pipeline without the MLP
and the call still returns True; if the directory does not exist, the code
prints a message and returns False — with the freshly loaded pipeline still
assigned to `self.pipeline`.  If the pipeline load itself raises, the inner
except's reload raises again, the outer except returns False, and the session
keeps its previous pipeline. -/
def loadModel (env : ModelDir) (s : Session) : Session × Bool :=
  if env.schedulerOk = false then (s, false)
  else if env.pipelineOk = false then (s, false)
  else if env.fidelityDirExists then
    if env.fidelityLoadOk then (⟨some ⟨true⟩⟩, true)
    else (⟨some ⟨false⟩⟩, true)
  else (⟨some ⟨false⟩⟩, false)

/-- The `props` bundle handed to `generate_image` (built in
src/DoodlePix/main.py lines 958-965): a `GenerationRequest`. -/
structure Props where
  prompt : List Char
  negative_prompt : List Char
  num_inference_steps : ℕ
  guidance_scale : ℚ
  image_guidance_scale : ℚ
  seed : Option ℤ
deriving DecidableEq

/-- The trailing clause check `props.prompt.endswith("background.")`
(inference.py line 149). -/
def backgroundClause : List Char := "background.".data

/-- The fixed negative-prompt terms appended on line 152 of inference.py. -/
def negativeTerms : List Char :=
  "NSFW, artifacts, blur, jpg, uncanny, deformed, glow, shadow.".data

/-- The request mutation performed by `generate_image` (inference.py lines
147-152): append " background." to the prompt unless it already ends with
"background.", and always append the fixed negative terms to the negative
prompt. -/
def augmentProps (p : Props) : Props :=
  { p with
    prompt :=
      if backgroundClause.isSuffixOf p.prompt then p.prompt
      else p.prompt ++ " background.".data
    negative_prompt := p.negative_prompt ++ negativeTerms }

/-- The generator argument computed on lines 187/200 of inference.py:
`torch.manual_seed(props.seed) if props.seed else None`.  Python truthiness
makes both an absent seed and the integer 0 produce `None` (nondeterministic
seeding); any other integer produces a generator seeded from it. -/
def generatorOfSeed (seed : Option ℤ) : Option ℤ :=
  match seed with
  | some s => if s = 0 then none else some s
  | none => none

/-- The error message of the guard at inference.py lines 130-131. -/
def notLoadedMsg : List Char :=
  "Pipeline not loaded! Please load a model first.".data

/-- Embedding of `InferenceHandler.generate_image` (inference.py lines
128-203) at the level the claims inspect: the missing-pipeline guard runs
first and raises before any processing; otherwise the request is augmented in
place and the pipeline is invoked with the (possibly `None`) generator.  The
session component of the result records that generation never reassigns
`self.pipeline`. -/
def generateImage (sess : Session) (p : Props) :
    Except (List Char) (Session × Props × Option ℤ) :=
  match sess.pipeline with
  | none => .error notLoadedMsg
  | some _ =>
    let p2 := augmentProps p
    .ok (sess, p2, generatorOfSeed p2.seed)

/-- The preview stride `max(1, props.num_inference_steps // 10)` of
inference.py line 160. -/
def callbackStride (totalSteps : ℕ) : ℕ := max 1 (totalSteps / 10)

/-- The filter inside `callback_wrapper` (inference.py line 160): the user
callback fires at step `i` iff `i % max(1, steps // 10) == 0 or
i == steps - 1`. -/
def callbackFires (totalSteps step : ℕ) : Bool :=
  step % callbackStride totalSteps == 0 || step == totalSteps - 1

/-- The steps at which the user callback is invoked during one generate call:
the underlying pipeline calls `callback_wrapper` once per step, in order, for
steps 0, 1, ..., totalSteps - 1 (`callback_steps=1`, line 189), and the
wrapper filters with `callbackFires`. -/
def invokedSteps (totalSteps : ℕ) : List ℕ :=
  (List.range totalSteps).filter (callbackFires totalSteps)

/-- The (step, total_steps) argument pairs passed to the user callback, in
invocation order (inference.py line 177 passes
`(step, props.num_inference_steps, img_bytes)`). -/
def callbackTrace (totalSteps : ℕ) : List (ℕ × ℕ) :=
  (invokedSteps totalSteps).map fun s => (s, totalSteps)

/-- Modelled from the spec: the claim C9 wire format, in the spec's words —
"the literal character f immediately followed by one or more digits,
optionally with an '=' between them, case-insensitively".  Note there is no
whitespace anywhere in this format.  Stated for comparison with the code's
regex `findMarker`. -/
def ContainsStrictMarker (s : List Char) : Prop :=
  ∃ pre c eq ds rest, s = pre ++ c :: (eq ++ ds ++ rest) ∧
    (c = 'f' ∨ c = 'F') ∧ (eq = [] ∨ eq = ['=']) ∧ ds ≠ [] ∧
    ∀ x ∈ ds, isDigitChar x = true

/-- Declarative characterisation of what the code's regex
f\s*=?\s*(\d+) (IGNORECASE) accepts at one start position: optional
whitespace, an optional '=', optional whitespace, then one or more digits. -/
def MatchesLooseMarker (cs : List Char) : Prop :=
  ∃ w1 eq w2 ds rest, cs = w1 ++ eq ++ w2 ++ ds ++ rest ∧
    (∀ x ∈ w1, isWs x = true) ∧ (eq = [] ∨ eq = ['=']) ∧
    (∀ x ∈ w2, isWs x = true) ∧ ds ≠ [] ∧ ∀ x ∈ ds, isDigitChar x = true

/-- Declarative characterisation of the strings in which the code's regex
finds a match somewhere: an f or F followed by a loose marker tail. -/
def ContainsLooseMarker (s : List Char) : Prop :=
  ∃ pre c cs, s = pre ++ c :: cs ∧ (c = 'f' ∨ c = 'F') ∧ MatchesLooseMarker cs

/-- A concrete request used to instantiate load/generate facts. -/
def sampleProps : Props :=
  ⟨"house".data, [], 20, 15/2, 3/2, some 42⟩

/-- A concrete request whose prompt lacks the trailing clause. -/
def requestBefore : Props :=
  ⟨"cat".data, [], 20, 15/2, 3/2, some 7⟩

/-- Claim C1: for every single prompt whose first fidelity marker carries
integer n, extraction returns 0.1 + (clamp(n,1,9) - 1) * 0.8/8, and for every
string containing no marker it returns the default 0.5. -/
theorem extract_single_correct (s : List Char) :
    (∀ n, findMarker s = some n →
      extractFidelity s =
        1/10 + (((min (max n 1) 9 : ℕ) : ℚ) - 1) * (8/10 / 8)) ∧
    (findMarker s = none → extractFidelity s = 1/2) := by
  constructor
  · intro n h
    have h1 : clampFid n = min (max n 1) 9 := by unfold clampFid; omega
    have h2 : 1 ≤ clampFid n := le_max_left _ _
    simp only [extractFidelity, h, fidelityOfInt]
    rw [Nat.cast_sub h2, Nat.cast_one, h1]
  · intro h
    simp only [extractFidelity, h]

/-- Witness instantiating C1 at the prompt "f5" (marker integer 5) and at a
markerless prompt. -/
theorem extract_single_correct_witness :
    extractFidelity ("f5".data) =
      1/10 + (((min (max 5 1) 9 : ℕ) : ℚ) - 1) * (8/10 / 8) ∧
    extractFidelity ("no marker here".data) = 1/2 :=
  ⟨(extract_single_correct _).1 5 (by decide),
   (extract_single_correct _).2 (by decide)⟩

/-- Claim C2: the conditioning composition keeps the batch size, and in every
batch row the output sequence has length N + 1, position 0 is the fidelity
embedding computed solely from the scalar, and positions 1..N are the original
token embeddings in their original order. -/
theorem compose_seq_structure (mlp : ℚ → List ℚ) (fval : ℚ)
    (embeds : List (List (List ℚ))) :
    (composeFidelity mlp fval embeds).length = embeds.length ∧
    List.Forall₂
      (fun out orig => out.length = orig.length + 1 ∧
        out.head? = some (mlp fval) ∧ out.tail = orig)
      (composeFidelity mlp fval embeds) embeds := by
  refine ⟨by simp [composeFidelity], ?_⟩
  induction embeds with
  | nil => simp [composeFidelity]
  | cons a l ih =>
    simp only [composeFidelity, List.map_cons] at ih ⊢
    exact List.Forall₂.cons ⟨by simp, rfl, rfl⟩ ih

/-- Order-preserving bridge between the foldr that the batch extraction runs
and the filtered list of per-element scalars. -/
lemma fvals_eq (ps : List (List Char)) :
    (ps.foldr
      (fun p acc =>
        match findMarker p with
        | some n => fidelityOfInt n :: acc
        | none => acc) []) =
    (ps.filter fun p => (findMarker p).isSome).map extractFidelity := by
  induction ps with
  | nil => rfl
  | cons p l ih =>
    cases h : findMarker p with
    | some n =>
      simp only [List.foldr_cons, List.filter_cons, h, Option.isSome_some,
        List.map_cons, ih]
      simp [extractFidelity, h]
    | none =>
      simp only [List.foldr_cons, List.filter_cons, h, Option.isSome_none,
        Bool.false_eq_true, if_false, ih]

/-- Claim C4: the batch extraction returns the arithmetic mean of the mapped
scalars over exactly the elements containing a marker, the default 0.5 when no
element contains one, and in particular 0.5 on ["f1 cat", "f9 dog"]. -/
theorem extract_batch_mean (ps : List (List Char)) :
    ((ps.filter fun p => (findMarker p).isSome) = [] →
      extractFidelityList ps = 1/2) ∧
    ((ps.filter fun p => (findMarker p).isSome) ≠ [] →
      extractFidelityList ps =
        ((ps.filter fun p => (findMarker p).isSome).map extractFidelity).sum /
          (((ps.filter fun p => (findMarker p).isSome).length : ℕ) : ℚ)) ∧
    extractFidelityList ["f1 cat".data, "f9 dog".data] = 1/2 := by
  have h1 : findMarker "f1 cat".data = some 1 := by decide
  have h2 : findMarker "f9 dog".data = some 9 := by decide
  refine ⟨?_, ?_, by
    norm_num [extractFidelityList, h1, h2, fidelityOfInt, clampFid]⟩
  · intro h
    simp only [extractFidelityList, fvals_eq, h, List.map_nil,
      List.isEmpty_nil, if_true]
  · intro h
    have hne : ((ps.filter fun p => (findMarker p).isSome).map
        extractFidelity).isEmpty = false := by
      cases hf : ps.filter fun p => (findMarker p).isSome with
      | nil => exact absurd hf h
      | cons a l => simp [hf]
    simp only [extractFidelityList, fvals_eq, hne, Bool.false_eq_true,
      if_false, List.length_map]

/-- Witness instantiating C4 at a markerless batch and at the batch ["f9"]. -/
theorem extract_batch_mean_witness :
    extractFidelityList ["cat".data] = 1/2 ∧
    extractFidelityList ["f9".data] =
      (((["f9".data] : List (List Char)).filter
          fun p => (findMarker p).isSome).map extractFidelity).sum /
        ((((["f9".data] : List (List Char)).filter
          fun p => (findMarker p).isSome).length : ℕ) : ℚ) :=
  ⟨(extract_batch_mean ["cat".data]).1 (by decide),
   (extract_batch_mean ["f9".data]).2.1 (by decide)⟩

/-- Claim C5 counterexample: the seed 0 is provided (present), yet the code
passes generator `None`, i.e. nondeterministic seeding despite a provided
seed, because the source guards with Python truthiness (`if props.seed`). -/
theorem zero_seed_not_deterministic :
    (some (0 : ℤ)).isSome = true ∧ generatorOfSeed (some 0) = none :=
  ⟨rfl, rfl⟩

/-- Claim C5 amended: for every provided nonzero seed the generator is seeded
deterministically from it; an absent seed or the provided seed 0 yield
generator `None` (nondeterministic); and for a loaded session the whole
generate call is a deterministic function of the request, so identical
requests produce identical generator seeding. -/
theorem seeding_deterministic_iff_nonzero :
    (∀ s : ℤ, s ≠ 0 → generatorOfSeed (some s) = some s) ∧
    generatorOfSeed (some 0) = none ∧ generatorOfSeed none = none ∧
    ∀ sess pipe p, sess.pipeline = some pipe →
      generateImage sess p = .ok (sess, augmentProps p, generatorOfSeed p.seed) := by
  refine ⟨fun s hs => by simp [generatorOfSeed, hs], rfl, rfl, ?_⟩
  intro sess pipe p h
  obtain ⟨pl⟩ := sess
  cases pl with
  | none => exact absurd h (by simp)
  | some q => rfl

/-- Witness instantiating the amended C5 at seed 42 and a loaded session. -/
theorem seeding_deterministic_iff_nonzero_witness :
    generatorOfSeed (some 42) = some 42 ∧
    generateImage ⟨some ⟨true⟩⟩ sampleProps =
      .ok (⟨some ⟨true⟩⟩, augmentProps sampleProps,
        generatorOfSeed sampleProps.seed) :=
  ⟨seeding_deterministic_iff_nonzero.1 42 (by decide),
   seeding_deterministic_iff_nonzero.2.2.2 ⟨some ⟨true⟩⟩ ⟨true⟩ sampleProps rfl⟩

/-- Claim C6 counterexample: on a fresh session, a load against a model
directory whose fidelity_mlp/ subdirectory is missing reports failure, yet the
session does not remain Unloaded — a pipeline is attached and generate is
usable. -/
theorem failed_load_attaches_pipeline :
    (loadModel ⟨true, true, false, true⟩ ⟨none⟩).2 = false ∧
    (loadModel ⟨true, true, false, true⟩ ⟨none⟩).1 ≠ (⟨none⟩ : Session) ∧
    ∃ r, generateImage (loadModel ⟨true, true, false, true⟩ ⟨none⟩).1
      sampleProps = .ok r :=
  ⟨rfl, by decide, ⟨_, rfl⟩⟩

/-- Claim C6 amended: when load fails because the scheduler or the pipeline
artifacts cannot be read, the session state is unchanged (atomicity holds on
those paths); but when load reports failure because fidelity_mlp/ is missing,
the freshly loaded pipeline remains attached, so a reported load failure does
not imply the Unloaded state. -/
theorem load_failure_paths (env : ModelDir) (s : Session) :
    (env.schedulerOk = false → loadModel env s = (s, false)) ∧
    (env.pipelineOk = false → loadModel env s = (s, false)) ∧
    (env.schedulerOk = true → env.pipelineOk = true →
      env.fidelityDirExists = false →
      loadModel env s = (⟨some ⟨false⟩⟩, false)) := by
  refine ⟨fun h => by simp [loadModel, h], fun h => ?_, fun h1 h2 h3 => ?_⟩
  · cases hs : env.schedulerOk <;> simp [loadModel, hs, h]
  · simp [loadModel, h1, h2, h3]

/-- Witness instantiating the amended C6 on a scheduler failure. -/
theorem load_failure_paths_witness :
    loadModel ⟨false, true, true, true⟩ ⟨none⟩ = (⟨none⟩, false) :=
  (load_failure_paths ⟨false, true, true, true⟩ ⟨none⟩).1 rfl

/-- Claim C3 counterexample: with the fidelity_mlp/ subdirectory absent (and
everything else loadable), load reports failure (returns False) — the
degraded mode is treated as a load failure, not reported as a success. -/
theorem missing_fidelity_reported_as_failure :
    (loadModel ⟨true, true, false, true⟩ ⟨none⟩).2 = false ∧
    (loadModel ⟨true, true, false, true⟩ ⟨none⟩).1.pipeline =
      some ⟨false⟩ := by
  decide

/-- Claim C3 amended: when the model directory contains no fidelity_mlp/
subdirectory, the rest of the model is still loaded and attached — subsequent
generate calls succeed and the conditioning step passes the text embeddings
through unchanged — and the condition is logged, but load returns False, i.e.
it is reported to the caller as a load failure rather than a degraded
success. -/
theorem missing_fidelity_load_behavior (env : ModelDir) (s : Session)
    (h1 : env.schedulerOk = true) (h2 : env.pipelineOk = true)
    (h3 : env.fidelityDirExists = false) :
    loadModel env s = (⟨some ⟨false⟩⟩, false) ∧
    (∀ p, ∃ r, generateImage (⟨some ⟨false⟩⟩ : Session) p = .ok r) ∧
    ∀ mlp fval embeds, pipelineConditioning ⟨false⟩ mlp fval embeds = embeds := by
  refine ⟨by simp [loadModel, h1, h2, h3], fun p => ⟨_, rfl⟩, fun _ _ _ => rfl⟩

/-- Witness instantiating the amended C3 on a concrete model directory. -/
theorem missing_fidelity_load_behavior_witness :
    loadModel ⟨true, true, false, true⟩ ⟨none⟩ =
      ((⟨some ⟨false⟩⟩ : Session), false) :=
  (missing_fidelity_load_behavior ⟨true, true, false, true⟩ ⟨none⟩
    rfl rfl rfl).1

/-- Claim C7 counterexample: generate mutates the request object — both the
prompt and the negative prompt of a concrete request differ after the
in-place augmentation of inference.py lines 149-152. -/
theorem generate_mutates_request :
    (augmentProps requestBefore).prompt ≠ requestBefore.prompt ∧
    (augmentProps requestBefore).negative_prompt ≠
      requestBefore.negative_prompt := by
  decide

/-- Claim C7 amended: generate mutates exactly the prompt and negative_prompt
fields of the request — the fixed negative terms are always appended, the
trailing clause is appended unless already present (making the prompt update
idempotent but the negative-prompt update cumulative) — while all other
request fields are unmodified. -/
theorem augment_frame_conditions (p : Props) :
    (augmentProps p).num_inference_steps = p.num_inference_steps ∧
    (augmentProps p).guidance_scale = p.guidance_scale ∧
    (augmentProps p).image_guidance_scale = p.image_guidance_scale ∧
    (augmentProps p).seed = p.seed ∧
    (augmentProps p).negative_prompt = p.negative_prompt ++ negativeTerms ∧
    ((augmentProps p).prompt =
      if backgroundClause.isSuffixOf p.prompt then p.prompt
      else p.prompt ++ " background.".data) ∧
    (augmentProps (augmentProps p)).prompt = (augmentProps p).prompt ∧
    (augmentProps (augmentProps p)).negative_prompt =
      (p.negative_prompt ++ negativeTerms) ++ negativeTerms := by
  have appendSuf : ∀ l : List Char,
      backgroundClause.isSuffixOf (l ++ " background.".data) = true := by
    intro l
    have h1 : backgroundClause <:+ " background.".data := ⟨[' '], rfl⟩
    exact List.isSuffixOf_iff_suffix.mpr (h1.trans (List.suffix_append _ _))
  have promptEq : ∀ q : Props, (augmentProps q).prompt =
      if backgroundClause.isSuffixOf q.prompt then q.prompt
      else q.prompt ++ " background.".data := fun _ => rfl
  refine ⟨rfl, rfl, rfl, rfl, rfl, rfl, ?_, rfl⟩
  rw [promptEq (augmentProps p), promptEq p]
  by_cases h : backgroundClause.isSuffixOf p.prompt
  · simp [h]
  · simp [h, appendSuf]

/-- Claim C10 counterexample: a session whose only load attempt reported
failure (fidelity_mlp/ missing, so load returned False and no successful load
ever completed) still has a pipeline attached, and generate returns a result
instead of raising the "Pipeline not loaded!" ValueError. -/
theorem generate_usable_without_successful_load :
    (loadModel ⟨true, true, false, true⟩ ⟨none⟩).2 = false ∧
    ∃ r, generateImage (loadModel ⟨true, true, false, true⟩ ⟨none⟩).1
      sampleProps = .ok r :=
  ⟨rfl, ⟨_, rfl⟩⟩

/-- Claim C10 amended: calling generate on a session with no pipeline attached
(in particular a fresh session on which no load ever attached one) raises the
ValueError "Pipeline not loaded!" before any processing, leaving the session
unchanged; with a pipeline attached generate proceeds and never reassigns the
session's pipeline. -/
theorem generate_requires_attached_pipeline (sess : Session) (p : Props) :
    (sess.pipeline = none → generateImage sess p = .error notLoadedMsg) ∧
    ∀ pipe, sess.pipeline = some pipe →
      ∃ p2 g, generateImage sess p = .ok (sess, p2, g) := by
  obtain ⟨pl⟩ := sess
  cases pl with
  | none => exact ⟨fun _ => rfl, fun pipe h => by simp at h⟩
  | some q =>
    exact ⟨fun h => by simp at h, fun pipe _ => ⟨_, _, rfl⟩⟩

/-- Witness instantiating the amended C10 on a fresh session. -/
theorem generate_requires_attached_pipeline_witness :
    generateImage (⟨none⟩ : Session) sampleProps = .error notLoadedMsg :=
  (generate_requires_attached_pipeline ⟨none⟩ sampleProps).1 rfl

/-- Claim C8: with N inference steps the callback fires at a bounded subset of
steps — the multiples of the stride max(1, N/10) plus always the final step
N-1 — each invocation passes total_steps = N as second argument, and the step
argument is strictly increasing across the invocations of one call. -/
theorem callback_schedule (N : ℕ) (hN : 0 < N) :
    (∀ s ∈ invokedSteps N, s < N ∧ (s % callbackStride N = 0 ∨ s = N - 1)) ∧
    (N - 1) ∈ invokedSteps N ∧
    List.Pairwise (· < ·) (invokedSteps N) ∧
    ∀ c ∈ callbackTrace N, c.2 = N ∧ c.1 ∈ invokedSteps N := by
  refine ⟨?_, ?_, ?_, ?_⟩
  · intro s hs
    simp only [invokedSteps, List.mem_filter, List.mem_range, callbackFires,
      Bool.or_eq_true, beq_iff_eq] at hs
    exact ⟨hs.1, hs.2⟩
  · refine List.mem_filter.2 ⟨List.mem_range.2 (by omega), ?_⟩
    simp [callbackFires]
  · exact (List.pairwise_lt_range N).filter _
  · intro c hc
    simp only [callbackTrace, List.mem_map] at hc
    obtain ⟨s, hs, rfl⟩ := hc
    exact ⟨rfl, hs⟩

/-- Dropping a satisfying prefix first drops all of it. -/
lemma dropWhile_append_all (p : Char → Bool) (a b : List Char)
    (h : ∀ x ∈ a, p x = true) :
    (a ++ b).dropWhile p = b.dropWhile p := by
  induction a with
  | nil => simp
  | cons x xs ih =>
    have hx := h x (List.mem_cons_self x xs)
    simp only [List.cons_append, List.dropWhile_cons, hx, if_true]
    exact ih fun y hy => h y (List.mem_cons_of_mem x hy)

/-- An ASCII digit is not regex whitespace. -/
lemma isWs_false_of_digit (c : Char) (h : isDigitChar c = true) :
    isWs c = false := by
  rw [Bool.eq_false_iff]
  intro hw
  simp only [isDigitChar, Bool.and_eq_true, decide_eq_true_eq] at h
  simp only [isWs, Bool.or_eq_true, beq_iff_eq] at hw
  omega

/-- An ASCII digit is not the equals sign. -/
lemma digit_ne_eq (c : Char) (h : isDigitChar c = true) : c ≠ '=' := by
  intro he
  rw [he] at h
  exact absurd h (by decide)

/-- The tail matcher accepts exactly the tails of the loose marker shape:
optional whitespace, optional '=', optional whitespace, one or more digits. -/
lemma matchAfterF_isSome_iff (cs : List Char) :
    (matchAfterF cs).isSome = true ↔ MatchesLooseMarker cs := by
  constructor
  · intro h
    rcases hd : cs.dropWhile isWs with _ | ⟨c1, r⟩
    · simp [matchAfterF, hd] at h
    · have e1 : cs.takeWhile isWs ++ cs.dropWhile isWs = cs :=
        List.takeWhile_append_dropWhile ..
      by_cases hc1 : c1 = '='
      · subst hc1
        have hmatch : matchAfterF cs =
            if ((r.dropWhile isWs).takeWhile isDigitChar).isEmpty then none
            else some (digitsOf ((r.dropWhile isWs).takeWhile isDigitChar)) := by
          simp [matchAfterF, hd]
        rw [hmatch] at h
        by_cases hne : ((r.dropWhile isWs).takeWhile isDigitChar).isEmpty = true
        · rw [if_pos hne] at h
          simp at h
        · refine ⟨cs.takeWhile isWs, ['='], r.takeWhile isWs,
            (r.dropWhile isWs).takeWhile isDigitChar,
            (r.dropWhile isWs).dropWhile isDigitChar, ?_,
            fun x hx => List.mem_takeWhile_imp hx, Or.inr rfl,
            fun x hx => List.mem_takeWhile_imp hx, ?_,
            fun x hx => List.mem_takeWhile_imp hx⟩
          · have e2 : r.takeWhile isWs ++ r.dropWhile isWs = r :=
              List.takeWhile_append_dropWhile ..
            have e3 : (r.dropWhile isWs).takeWhile isDigitChar ++
                (r.dropWhile isWs).dropWhile isDigitChar = r.dropWhile isWs :=
              List.takeWhile_append_dropWhile ..
            have hr : r = r.takeWhile isWs ++
                ((r.dropWhile isWs).takeWhile isDigitChar ++
                  (r.dropWhile isWs).dropWhile isDigitChar) := by
              rw [e3, e2]
            conv_lhs => rw [← e1, hd, hr]
            simp [List.append_assoc]
          · intro hnil
            rw [hnil] at hne
            exact hne rfl
      · have hmatch : matchAfterF cs =
            if ((c1 :: r).takeWhile isDigitChar).isEmpty then none
            else some (digitsOf ((c1 :: r).takeWhile isDigitChar)) := by
          simp [matchAfterF, hd, hc1]
        rw [hmatch] at h
        by_cases hne : ((c1 :: r).takeWhile isDigitChar).isEmpty = true
        · rw [if_pos hne] at h
          simp at h
        · refine ⟨cs.takeWhile isWs, [], [],
            (c1 :: r).takeWhile isDigitChar,
            (c1 :: r).dropWhile isDigitChar, ?_,
            fun x hx => List.mem_takeWhile_imp hx, Or.inl rfl, by simp, ?_,
            fun x hx => List.mem_takeWhile_imp hx⟩
          · have e3 : (c1 :: r).takeWhile isDigitChar ++
                (c1 :: r).dropWhile isDigitChar = c1 :: r :=
              List.takeWhile_append_dropWhile ..
            conv_lhs => rw [← e1, hd, ← e3]
            simp [List.append_assoc]
          · intro hnil
            rw [hnil] at hne
            exact hne rfl
  · rintro ⟨w1, eq, w2, ds, rest, hcs, hw1, heq, hw2, hds, hdig⟩
    obtain ⟨d, ds2, rfl⟩ : ∃ d ds2, ds = d :: ds2 := by
      cases ds with
      | nil => exact absurd rfl hds
      | cons d t => exact ⟨d, t, rfl⟩
    have hdd : isDigitChar d = true := hdig d (by simp)
    have hdw : isWs d = false := isWs_false_of_digit d hdd
    have hdne : d ≠ '=' := digit_ne_eq d hdd
    have hwEq : isWs '=' = false := by decide
    rcases heq with rfl | rfl
    · have hdrop : cs.dropWhile isWs = d :: (ds2 ++ rest) := by
        rw [hcs]
        simp only [List.nil_append, List.append_assoc, List.cons_append]
        rw [dropWhile_append_all isWs w1 _ hw1,
          dropWhile_append_all isWs w2 _ hw2, List.dropWhile_cons, hdw]
        simp
      have hmatch : matchAfterF cs =
          if ((d :: (ds2 ++ rest)).takeWhile isDigitChar).isEmpty then none
          else some (digitsOf ((d :: (ds2 ++ rest)).takeWhile isDigitChar)) := by
        simp [matchAfterF, hdrop, hdne]
      rw [hmatch, List.takeWhile_cons, hdd]
      simp
    · have hdrop : cs.dropWhile isWs = '=' :: (w2 ++ (d :: (ds2 ++ rest))) := by
        rw [hcs]
        simp only [List.append_assoc, List.cons_append, List.nil_append]
        rw [dropWhile_append_all isWs w1 _ hw1, List.dropWhile_cons, hwEq]
        simp
      have hdrop2 : (w2 ++ (d :: (ds2 ++ rest))).dropWhile isWs =
          d :: (ds2 ++ rest) := by
        rw [dropWhile_append_all isWs w2 _ hw2, List.dropWhile_cons, hdw]
        simp
      have hmatch : matchAfterF cs =
          if ((d :: (ds2 ++ rest)).takeWhile isDigitChar).isEmpty then none
          else some (digitsOf ((d :: (ds2 ++ rest)).takeWhile isDigitChar)) := by
        simp [matchAfterF, hdrop, hdrop2]
      rw [hmatch, List.takeWhile_cons, hdd]
      simp

/-- The scan finds a marker in exactly the strings containing a letter f or F
followed by a loose marker tail somewhere. -/
lemma findMarker_isSome_iff (s : List Char) :
    (findMarker s).isSome = true ↔ ContainsLooseMarker s := by
  induction s with
  | nil =>
    constructor
    · intro h
      simp [findMarker] at h
    · rintro ⟨pre, c0, cs0, he, -, -⟩
      cases pre <;> simp at he
  | cons c cs ih =>
    constructor
    · intro h
      by_cases hcb : (c == 'f' || c == 'F') = true
      · cases hm : matchAfterF cs with
        | some n =>
          have hc0 : c = 'f' ∨ c = 'F' := by
            simpa [Bool.or_eq_true, beq_iff_eq] using hcb
          exact ⟨[], c, cs, rfl, hc0,
            (matchAfterF_isSome_iff cs).1 (by simp [hm])⟩
        | none =>
          have h2 : (findMarker cs).isSome = true := by
            simpa [findMarker, hcb, hm] using h
          obtain ⟨pre, c0, cs0, he, hc0, hm0⟩ := ih.1 h2
          exact ⟨c :: pre, c0, cs0, by simp [he], hc0, hm0⟩
      · rw [Bool.not_eq_true] at hcb
        have h2 : (findMarker cs).isSome = true := by
          simpa [findMarker, hcb] using h
        obtain ⟨pre, c0, cs0, he, hc0, hm0⟩ := ih.1 h2
        exact ⟨c :: pre, c0, cs0, by simp [he], hc0, hm0⟩
    · rintro ⟨pre, c0, cs0, he, hc0, hm⟩
      cases pre with
      | nil =>
        simp only [List.nil_append] at he
        have hch : c = c0 := List.head_eq_of_cons_eq he
        have hct : cs = cs0 := List.tail_eq_of_cons_eq he
        obtain ⟨n, hn⟩ := Option.isSome_iff_exists.1
          ((matchAfterF_isSome_iff cs0).2 hm)
        have hn2 : matchAfterF cs = some n := by rw [hct]; exact hn
        have hcb : (c == 'f' || c == 'F') = true := by
          rcases hc0 with h | h <;> simp [hch, h]
        simp [findMarker, hcb, hn2]
      | cons a pre2 =>
        rw [List.cons_append] at he
        injection he with h1 h2
        have h3 : (findMarker cs).isSome = true :=
          ih.2 ⟨pre2, c0, cs0, h2, hc0, hm⟩
        by_cases hcb : (c == 'f' || c == 'F') = true
        · cases hm2 : matchAfterF cs with
          | some n => simp [findMarker, hcb, hm2]
          | none => simpa [findMarker, hcb, hm2] using h3
        · rw [Bool.not_eq_true] at hcb
          simpa [findMarker, hcb] using h3

/-- Claim C9 counterexample: the prompt "f 7" contains no substring of the
claimed exact wire format (f, optional '=', digits — no whitespace allowed),
yet the extraction does not return the default 0.5: the code's regex
additionally allows whitespace around the optional '=', so "f 7" maps to
0.7. -/
theorem strict_marker_counterexample :
    ¬ ContainsStrictMarker ("f 7".data) ∧
    extractFidelity ("f 7".data) = 7/10 := by
  constructor
  · rintro ⟨pre, c, eq, ds, rest, hsplit, hc, heq, hds, hdig⟩
    have hs : ("f 7".data : List Char) = ['f', ' ', '7'] := rfl
    rw [hs] at hsplit
    rcases pre with _ | ⟨a, pre⟩
    · simp only [List.nil_append] at hsplit
      injection hsplit with h1 h2
      rcases heq with rfl | rfl
      · simp only [List.nil_append] at h2
        rcases ds with _ | ⟨d, ds2⟩
        · exact hds rfl
        · rw [List.cons_append] at h2
          injection h2 with h3 h4
          have hdd := hdig d (by simp)
          rw [← h3] at hdd
          exact absurd hdd (by decide)
      · simp only [List.cons_append, List.nil_append] at h2
        injection h2 with h3 h4
        exact absurd h3 (by decide)
    · rw [List.cons_append] at hsplit
      injection hsplit with h1 h2
      rcases pre with _ | ⟨b, pre⟩
      · simp only [List.nil_append] at h2
        injection h2 with h3 h4
        rw [← h3] at hc
        rcases hc with h | h <;> exact absurd h (by decide)
      · rw [List.cons_append] at h2
        injection h2 with h3 h4
        rcases pre with _ | ⟨e, pre⟩
        · simp only [List.nil_append] at h4
          injection h4 with h5 h6
          rw [← h5] at hc
          rcases hc with h | h <;> exact absurd h (by decide)
        · rw [List.cons_append] at h4
          injection h4 with h5 h6
          simp at h6
  · have h7 : findMarker ("f 7".data) = some 7 := by decide
    norm_num [extractFidelity, h7, fidelityOfInt, clampFid]

/-- Claim C9 amended: the extraction recognizes a marker exactly in the wire
format of the code's regex — the letter f or F, then optional whitespace, an
optional '=', optional whitespace, then one or more digits — and every prompt
string containing no substring of that form yields the default scalar 0.5. -/
theorem marker_regex_characterization (s : List Char) :
    ((findMarker s).isSome = true ↔ ContainsLooseMarker s) ∧
    (findMarker s = none → extractFidelity s = 1/2) :=
  ⟨findMarker_isSome_iff s, fun h => by simp only [extractFidelity, h]⟩

/-- Witness instantiating the amended C9 on a markerless prompt. -/
theorem marker_regex_characterization_witness :
    extractFidelity ("plain text".data) = 1/2 :=
  (marker_regex_characterization ("plain text".data)).2 (by decide)

/-- Witness instantiating C8 at N = 20 inference steps. -/
theorem callback_schedule_witness :
    (∀ s ∈ invokedSteps 20, s < 20 ∧
      (s % callbackStride 20 = 0 ∨ s = 20 - 1)) ∧
    (20 - 1) ∈ invokedSteps 20 ∧
    List.Pairwise (· < ·) (invokedSteps 20) ∧
    ∀ c ∈ callbackTrace 20, c.2 = 20 ∧ c.1 ∈ invokedSteps 20 :=
  callback_schedule 20 (by decide)

end DoodlePix
